import Mathlib

/-!
Verification of the yeti-telemetry client core.

Shallow embedding of the streaming-subscription and metric-aggregation
logic of the yeti-telemetry web client, together with proofs of its
specified properties.

Embedding conventions:
* JS strings are embedded as `List Char` (abbreviated `Str`); string
  methods (`startsWith`, `includes`, `toLowerCase`) are embedded as the
  corresponding list functions below.  Case folding is ASCII (`Char.toLower`).
* JS numbers carried by records (`value`, `durationMs`) are embedded as `Int`;
  no verified property performs arithmetic on them, they ride along opaquely.
* Fallible JS code (`JSON.parse` inside try/catch, the `parse` callback)
  is embedded with `Option`: `none` is "threw or returned null".
* `JSON.parse` itself is embedded by an executable recursive-descent
  parser (`parseStep`) over the JSON grammar, driven by a fuel argument so
  that it is structurally recursive and kernel-evaluable.
-/

/-- JS strings, embedded as their character lists. -/
abbrev Str := List Char

/-- The character `"` (named so that string/char literals stay simple). -/
def quoteCh : Char := Char.ofNat 34

/-- The character `\`. -/
def backslashCh : Char := Char.ofNat 92

/-- The character `{`. -/
def lbraceCh : Char := Char.ofNat 123

/-- The character `}`. -/
def rbraceCh : Char := Char.ofNat 125

/-- The character `,`. -/
def commaCh : Char := Char.ofNat 44

/-- Embedding of JS `hay.startsWith(pre)`. -/
def strStartsWith : Str → Str → Bool
  | _, [] => true
  | [], _ :: _ => false
  | h :: hs, p :: ps => p == h && strStartsWith hs ps

/-- Embedding of JS `hay.includes(needle)` (substring containment). -/
def strContains : Str → Str → Bool
  | [], needle => strStartsWith [] needle
  | h :: t, needle => strStartsWith (h :: t) needle || strContains t needle

/-- Embedding of JS `s.toLowerCase()` (ASCII case folding). -/
def toLowerStr (s : Str) : Str := s.map Char.toLower

/-- Lexicographic (code-point) `≤` on strings; embeds the ascending
`localeCompare` comparator used to sort app ids. -/
def lexLe : Str → Str → Bool
  | [], _ => true
  | _ :: _, [] => false
  | x :: xs, y :: ys =>
    if x.toNat < y.toNat then true
    else if y.toNat < x.toNat then false
    else lexLe xs ys

/-! ## JSON values and `JSON.parse` -/

/-- JSON values.  Numbers keep their literal text: no verified property
depends on numeric attribute values. -/
inductive Json where
  | null
  | bool (b : Bool)
  | num (lit : Str)
  | str (s : Str)
  | arr (elems : List Json)
  | obj (fields : List (Str × Json))

/-- JSON insignificant whitespace (space, tab, line feed, carriage return). -/
def isJsonWs (c : Char) : Bool :=
  [' ', '\t', '\n', '\r'].contains c

def skipWs (s : Str) : Str := s.dropWhile isJsonWs

/-- Value of a hex digit, if any (decimal digits, then both letter cases). -/
def hexVal (c : Char) : Option Nat :=
  let n := c.toNat
  if 48 ≤ n ∧ n ≤ 57 then some (n - 48)
  else if 97 ≤ n ∧ n ≤ 102 then some (n - 87)
  else if 65 ≤ n ∧ n ≤ 70 then some (n - 55)
  else none

/-- Parse the body of a JSON string (the opening quote already consumed):
returns the decoded characters and the rest of the input.  Handles the
escapes `\" \\ \/ \b \f \n \r \t \uXXXX`; rejects raw control characters. -/
def parseStringBody : Nat → Str → Option (Str × Str)
  | 0, _ => none
  | _ + 1, [] => none
  | fuel + 1, c :: rest =>
    if c == quoteCh then some ([], rest)
    else if c == backslashCh then
      match rest with
      | [] => none
      | e :: rest2 =>
        if e == 'u' then
          match rest2 with
          | h1 :: h2 :: h3 :: h4 :: rest3 =>
            match hexVal h1, hexVal h2, hexVal h3, hexVal h4 with
            | some v1, some v2, some v3, some v4 =>
              let code := ((v1 * 16 + v2) * 16 + v3) * 16 + v4
              (parseStringBody fuel rest3).map
                (fun r => (Char.ofNat code :: r.1, r.2))
            | _, _, _, _ => none
          | _ => none
        else
          let ch : Option Char :=
            if e == quoteCh then some quoteCh
            else if e == backslashCh then some backslashCh
            else if e == '/' then some '/'
            else if e == 'b' then some (Char.ofNat 8)
            else if e == 'f' then some (Char.ofNat 12)
            else if e == 'n' then some '\n'
            else if e == 'r' then some '\r'
            else if e == 't' then some '\t'
            else none
          match ch with
          | some ch => (parseStringBody fuel rest2).map (fun r => (ch :: r.1, r.2))
          | none => none
    else if c.toNat < 32 then none
    else (parseStringBody fuel rest).map (fun r => (c :: r.1, r.2))

/-- Parse one or more decimal digits. -/
def parseDigits1 (s : Str) : Option (Str × Str) :=
  let p := s.span Char.isDigit
  if p.1.isEmpty then none else some p

/-- Parse a JSON number literal, returning its text and the rest. -/
def parseNumLit (s : Str) : Option (Str × Str) :=
  let (sign, s1) :=
    match s with
    | c :: rest => if c == '-' then (['-'], rest) else (([] : Str), s)
    | [] => ([], s)
  match s1 with
  | [] => none
  | c :: rest =>
    if c == '0' then
      -- leading zero: integer part is exactly "0"
      (parseFrac rest).map (fun r => (sign ++ '0' :: r.1, r.2))
    else if c.isDigit then
      match parseDigits1 (c :: rest) with
      | some (ds, rest2) => (parseFrac rest2).map (fun r => (sign ++ ds ++ r.1, r.2))
      | none => none
    else none
where
  /-- Optional fraction then optional exponent. -/
  parseFrac (s : Str) : Option (Str × Str) :=
    match s with
    | c :: rest =>
      if c == '.' then
        match parseDigits1 rest with
        | some (ds, rest2) => (parseExp rest2).map (fun r => ('.' :: ds ++ r.1, r.2))
        | none => none
      else parseExp s
    | [] => parseExp s
  /-- Optional exponent. -/
  parseExp (s : Str) : Option (Str × Str) :=
    match s with
    | c :: rest =>
      if c == 'e' || c == 'E' then
        let (sgn, rest2) :=
          match rest with
          | d :: r2 => if d == '+' || d == '-' then ([d], r2) else (([] : Str), rest)
          | [] => ([], rest)
        match parseDigits1 rest2 with
        | some (ds, rest3) => some (c :: sgn ++ ds, rest3)
        | none => none
      else some ([], s)
    | [] => some ([], s)

/-- Parser modes: a value, the inside of an object, or the inside of an
array (`first` distinguishes "just after the opening bracket", where an
immediate close is legal, from "just after a comma", where it is not). -/
inductive PMode where
  | val
  | objBody (first : Bool) (acc : List (Str × Json))
  | arrBody (first : Bool) (acc : List Json)

/-- Recursive-descent JSON parser.  Structurally recursive on the fuel so
that concrete inputs evaluate inside the kernel. -/
def parseStep : Nat → PMode → Str → Option (Json × Str)
  | 0, _, _ => none
  | fuel + 1, PMode.val, s =>
    match skipWs s with
    | [] => none
    | c :: rest =>
      if c == lbraceCh then parseStep fuel (PMode.objBody true []) rest
      else if c == '[' then parseStep fuel (PMode.arrBody true []) rest
      else if c == quoteCh then
        (parseStringBody (rest.length + 1) rest).map (fun r => (Json.str r.1, r.2))
      else if c == 't' then
        if strStartsWith rest "rue".data then some (Json.bool true, rest.drop 3) else none
      else if c == 'f' then
        if strStartsWith rest "alse".data then some (Json.bool false, rest.drop 4) else none
      else if c == 'n' then
        if strStartsWith rest "ull".data then some (Json.null, rest.drop 3) else none
      else if c == '-' || c.isDigit then
        (parseNumLit (c :: rest)).map (fun r => (Json.num r.1, r.2))
      else none
  | fuel + 1, PMode.objBody first acc, s =>
    match skipWs s with
    | [] => none
    | c :: rest =>
      if c == rbraceCh && first then some (Json.obj acc, rest)
      else if c == quoteCh then
        match parseStringBody (rest.length + 1) rest with
        | none => none
        | some (key, rest2) =>
          match skipWs rest2 with
          | colon :: rest3 =>
            if colon == ':' then
              match parseStep fuel PMode.val rest3 with
              | none => none
              | some (v, rest4) =>
                match skipWs rest4 with
                | d :: rest5 =>
                  if d == commaCh then
                    parseStep fuel (PMode.objBody false (acc ++ [(key, v)])) rest5
                  else if d == rbraceCh then some (Json.obj (acc ++ [(key, v)]), rest5)
                  else none
                | [] => none
            else none
          | [] => none
      else none
  | fuel + 1, PMode.arrBody first acc, s =>
    match skipWs s with
    | [] => none
    | c :: rest =>
      if c == ']' && first then some (Json.arr acc, rest)
      else
        match parseStep fuel PMode.val (c :: rest) with
        | none => none
        | some (v, rest2) =>
          match skipWs rest2 with
          | d :: rest3 =>
            if d == commaCh then parseStep fuel (PMode.arrBody false (acc ++ [v])) rest3
            else if d == ']' then some (Json.arr (acc ++ [v]), rest3)
            else none
          | [] => none

/-- Embedding of `JSON.parse` inside a try/catch: `none` is "threw". -/
def jsonParse (s : Str) : Option Json :=
  match parseStep (s.length + 4) PMode.val s with
  | some (v, rest) => if (skipWs rest).isEmpty then some v else none
  | none => none

/-- JS property access on a parsed object: with duplicate keys,
`JSON.parse` keeps the last occurrence. -/
def jsGetField (fields : List (Str × Json)) (key : Str) : Option Json :=
  fields.foldl (fun acc kv => if kv.1 == key then some kv.2 else acc) none

/-! ## Record types (src/types.ts) -/

/-- Embedding of `MetricEntry` from `src/types.ts`.  `value` is opaque to every
verified property and embedded as `Int`. -/
structure MetricEntry where
  id : Str
  name : Str
  value : Int
  attributes : Option Str
  timestamp : Str
  deriving DecidableEq

/-- Embedding of `LogEntry` from `src/types.ts`. -/
structure LogEntry where
  id : Str
  timestamp : Str
  level : Str
  target : Str
  message : Str
  fields : Option Str
  deriving DecidableEq

/-- Embedding of `SpanEntry` from `src/types.ts`.  `durationMs` is opaque to every
verified property and embedded as `Int`. -/
structure SpanEntry where
  id : Str
  name : Str
  target : Str
  level : Str
  startTime : Str
  endTime : Option Str
  durationMs : Option Int
  fields : Option Str
  deriving DecidableEq

/-! ## `parseAppId` and `metricKey` (src/components/MetricsPanel.tsx) -/

/-- The key `"app_id"`. -/
def appIdKey : Str := "app_id".data

/--
Embedding of `parseAppId(attributes?: string): string | null`
(MetricsPanel.tsx lines 53-62):

* `!attributes` (absent or empty string) and the literal `'{}'` return null;
* otherwise `JSON.parse(attributes)`; if the result is a string it is
  `JSON.parse`d a second time (double-encoded attributes);
* `parsed.app_id || null`: the `app_id` field of the resulting object if it
  is a truthy (non-empty) string, else null; property access on a
  non-object yields undefined (or throws, for null) and the surrounding
  try/catch turns every failure into null.

Per the function's declared type, application ids are strings; an `app_id`
field holding a non-string JSON value falls outside the `MetricEntry`
attributes contract and is embedded as absent.
-/
def parseAppId (attributes : Option Str) : Option Str :=
  match attributes with
  | none => none
  | some s =>
    if s.isEmpty then none
    else if s = "\x7b\x7d".data then none
    else
      match jsonParse s with
      | none => none
      | some v0 =>
        let v1 : Option Json :=
          match v0 with
          | Json.str inner => jsonParse inner
          | _ => some v0
        match v1 with
        | some (Json.obj fields) =>
          match jsGetField fields appIdKey with
          | some (Json.str a) => if a.isEmpty then none else some a
          | _ => none
        | _ => none

/-- Embedding of `metricKey` (MetricsPanel.tsx lines 64-68):
composite dedup key `name:appId` when an app id parses, else the bare name. -/
def metricKey (m : MetricEntry) : Str :=
  match parseAppId m.attributes with
  | some appId => m.name ++ ':' :: appId
  | none => m.name

/-! ## `useSSE` (src/hooks/useSSE.ts) -/

/-- The default `maxItems` of `useSSE` (useSSE.ts line 19). -/
def defaultMaxItems : Nat := 1000

/-- The snapshot fetch's record cap: `?limit=500` (useSSE.ts line 34). -/
def snapshotLimit : Nat := 500

/-- Embedding of JS `a.slice(-k)`: the last `k` elements for `k > 0`;
`slice(-0)` is `slice(0)`, the whole array. -/
def jsSliceLast (a : List α) (k : Nat) : List α :=
  if k = 0 then a else a.drop (a.length - k)

/-- One live push (useSSE.ts lines 72-75): append the parsed record, then
`next.length > maxItems ? next.slice(-maxItems) : next`. -/
def pushLive (maxItems : Nat) (prev : List α) (x : α) : List α :=
  let next := prev ++ [x]
  if next.length > maxItems then jsSliceLast next maxItems else next

/-- The `update` listener (useSSE.ts lines 67-80): drop the event while
paused; otherwise decode it (`parse` embeds the `parse`/`JSON.parse` step,
`none` meaning "returned null or threw") and push on success. -/
def updListener (paused : Bool) (maxItems : Nat) (parse : σ → Option α)
    (items : List α) (d : σ) : List α :=
  if paused then items
  else
    match parse d with
    | some x => pushLive maxItems items x
    | none => items

/-- Resolution of the snapshot fetch (useSSE.ts lines 33-42): install the
decoded records only when the result set is non-empty; the records are
installed exactly as returned. -/
def snapshotInstall (records : List α) (items : List α) : List α :=
  if records.length > 0 then records else items

/-- The asynchronous events a live subscription processes (§5: all are
posted to the single event-processing thread). -/
inductive SubEvent (σ α : Type) where
  /-- An SSE `update` event carrying raw data. -/
  | update (d : σ)
  /-- The snapshot fetch resolved with a decoded record array. -/
  | snapshotOk (records : List α)
  /-- The snapshot fetch rejected (network or decode error); the `.catch`
  swallows it. -/
  | snapshotErr
  /-- The effect cleanup ran (component unmount): `es.close()`. -/
  | cleanup

/-- Subscription state: the buffered items plus whether the subscription
has been released (effect cleanup ran). -/
structure SubState (α : Type) where
  items : List α
  released : Bool

/-- One step of the subscription's event loop.  After release, `update`
events are no longer delivered (the `EventSource` is closed, its listeners
detached), and a late snapshot resolution's `setItems` targets an
unmounted component, which React discards as a no-op. -/
def subStep (paused : Bool) (maxItems : Nat) (parse : σ → Option α)
    (st : SubState α) : SubEvent σ α → SubState α
  | SubEvent.update d =>
    if st.released then st
    else { st with items := updListener paused maxItems parse st.items d }
  | SubEvent.snapshotOk records =>
    if st.released then st
    else { st with items := snapshotInstall records st.items }
  | SubEvent.snapshotErr => st
  | SubEvent.cleanup => { st with released := true }

/-! ## Panel filters (LogsPanel.tsx, SpansPanel.tsx) -/

/-- The five log levels (`LOG_LEVELS` in src/types.ts). -/
def LOG_LEVELS : List Str :=
  ["TRACE".data, "DEBUG".data, "INFO".data, "WARN".data, "ERROR".data]

/-- The LogsPanel filter predicate (LogsPanel, `filtered`): the level must
be enabled, and when a search string is set the lowercased message or
target must contain the lowercased search string. -/
def logPasses (enabledLevels : List Str) (search : Str) (log : LogEntry) : Bool :=
  let searchLower := toLowerStr search
  if !(enabledLevels.contains log.level) then false
  else if !search.isEmpty
      && !(strContains (toLowerStr log.message) searchLower)
      && !(strContains (toLowerStr log.target) searchLower) then false
  else true

/-- The `filtered` list of LogsPanel: `items.filter(...)`. -/
def logFiltered (enabledLevels : List Str) (search : Str)
    (items : List LogEntry) : List LogEntry :=
  items.filter (logPasses enabledLevels search)

/-- The SpansPanel filter predicate (SpansPanel.tsx lines 32-36): only a
case-insensitive substring match on name or target, no level condition. -/
def spanPasses (search : Str) (span : SpanEntry) : Bool :=
  let searchLower := toLowerStr search
  if !search.isEmpty
      && !(strContains (toLowerStr span.name) searchLower)
      && !(strContains (toLowerStr span.target) searchLower) then false
  else true

/-- The `filtered` list of SpansPanel: `items.filter(...)`. -/
def spanFiltered (search : Str) (items : List SpanEntry) : List SpanEntry :=
  items.filter (spanPasses search)

/-! ## MetricsPanel: dedup, partition, app stats -/

/-- JS `Map.set` on an insertion-ordered association list: overwriting an
existing key keeps its original position, a new key is appended. -/
def mapSet (m : List (κ × ν)) (k : κ) (v : ν) [DecidableEq κ] : List (κ × ν) :=
  match m with
  | [] => [(k, v)]
  | (k', v') :: rest => if k' = k then (k, v) :: rest else (k', v') :: mapSet rest k v

/-- The `latestMetrics` dedup map (MetricsPanel.tsx lines 175-181):
iterate the buffer in arrival order, `set(metricKey(m), m)`. -/
def latestMetrics (items : List MetricEntry) : List (Str × MetricEntry) :=
  items.foldl (fun acc m => mapSet acc (metricKey m) m) []

/-- The test `m.name.startsWith('system.') || m.name.startsWith('process.') ||
m.name.startsWith('telemetry.')` (MetricsPanel.tsx line 187). -/
def isSystemName (n : Str) : Bool :=
  strStartsWith n "system.".data || strStartsWith n "process.".data
    || strStartsWith n "telemetry.".data

/-- The test `name.startsWith('app.')`. -/
def isAppName (n : Str) : Bool := strStartsWith n "app.".data

/-- The three metric categories of the spec's partition. -/
inductive MCat where
  | system
  | application
  | other
  deriving DecidableEq, BEq

/-- The classification MetricsPanel applies to a (deduplicated) metric
name: the system/other loop (lines 184-192) plus the `app.` guard of
`buildAppStats` (line 83). -/
def category (n : Str) : MCat :=
  if isSystemName n then MCat.system
  else if isAppName n then MCat.application
  else MCat.other

/-- One iteration of the system/other partition loop (MetricsPanel.tsx
lines 186-191): a system-prefixed metric is pushed to `system`, a
non-`app.` remainder to `other`, an `app.`-prefixed one to neither. -/
def partStep (acc : List MetricEntry × List MetricEntry) (m : MetricEntry) :
    List MetricEntry × List MetricEntry :=
  if isSystemName m.name then (acc.1 ++ [m], acc.2)
  else if !isAppName m.name then (acc.1, acc.2 ++ [m])
  else acc

/-- The system/other partition loop (MetricsPanel.tsx lines 184-192):
system-prefixed metrics go to `system`, non-`app.` remainders to `other`,
`app.`-prefixed ones to neither (they feed `buildAppStats`). -/
def partitionMetrics (metrics : List MetricEntry) : List MetricEntry × List MetricEntry :=
  metrics.foldl partStep ([], [])

/-- Embedding of `AppStats` (MetricsPanel.tsx lines 71-78). -/
structure AppStats where
  appId : Str
  isExtension : Bool
  rps : Option MetricEntry
  p95Latency : Option MetricEntry
  errorPercent : Option MetricEntry
  rateLimited : Option MetricEntry
  deriving DecidableEq

/-- The bucket id for metrics without a parseable app id. -/
def unknownId : Str := "unknown".data

/-- The bucket id `parseAppId(m.attributes) || 'unknown'` (MetricsPanel.tsx line 84). -/
def effAppId (m : MetricEntry) : Str := (parseAppId m.attributes).getD unknownId

def rpsName : Str := "app.requests.peak_rps".data
def p95Name : Str := "app.requests.p95_latency_ms".data
def errName : Str := "app.requests.error_percent".data
def rlName : Str := "app.requests.rate_limited".data

/-- The four exact-name field updates of `buildAppStats`
(MetricsPanel.tsx lines 89-92); any other name leaves the stats unchanged. -/
def updateStats (st : AppStats) (m : MetricEntry) : AppStats :=
  if m.name = rpsName then { st with rps := some m }
  else if m.name = p95Name then { st with p95Latency := some m }
  else if m.name = errName then { st with errorPercent := some m }
  else if m.name = rlName then { st with rateLimited := some m }
  else st

/-- A fresh `AppStats` entry: `{ appId, isExtension: extensionIds.has(appId) }`. -/
def freshStats (appId : Str) (extensionIds : List Str) : AppStats :=
  { appId := appId, isExtension := extensionIds.contains appId,
    rps := none, p95Latency := none, errorPercent := none, rateLimited := none }

/-- One iteration of the `buildAppStats` loop (MetricsPanel.tsx lines 82-93). -/
def statsStep (extensionIds : List Str) (statsMap : List (Str × AppStats))
    (m : MetricEntry) : List (Str × AppStats) :=
  if !isAppName m.name then statsMap
  else
    let appId := effAppId m
    let statsMap :=
      if (statsMap.lookup appId).isSome then statsMap
      else mapSet statsMap appId (freshStats appId extensionIds)
    match statsMap.lookup appId with
    | some st => mapSet statsMap appId (updateStats st m)
    | none => statsMap

/-- Embedding of `buildAppStats` (MetricsPanel.tsx lines 80-95), as the
insertion-ordered map it fills. -/
def buildAppStats (metrics : List MetricEntry) (extensionIds : List Str) :
    List (Str × AppStats) :=
  metrics.foldl (statsStep extensionIds) []

/-- The sort order of `allApps`: ascending by `appId`. -/
def appLe (a b : AppStats) : Prop := lexLe a.appId b.appId = true

instance : DecidableRel appLe := fun a b =>
  inferInstanceAs (Decidable (lexLe a.appId b.appId = true))

/-- The comparator-sorted `allApps` (MetricsPanel.tsx line 194):
`Array.from(appStats.values()).sort((a, b) => a.appId.localeCompare(b.appId))`,
the comparator embedded as code-point lexicographic order. -/
def allAppsOf (metrics : List MetricEntry) (extensionIds : List Str) : List AppStats :=
  List.insertionSort appLe ((buildAppStats metrics extensionIds).map Prod.snd)

/-- The group `extensions = allApps.filter(a => a.isExtension)` (line 195). -/
def extensionsOf (metrics : List MetricEntry) (extensionIds : List Str) : List AppStats :=
  (allAppsOf metrics extensionIds).filter (fun a => a.isExtension)

/-- The group `applications = allApps.filter(a => !a.isExtension)` (line 196). -/
def applicationsOf (metrics : List MetricEntry) (extensionIds : List Str) : List AppStats :=
  (allAppsOf metrics extensionIds).filter (fun a => !a.isExtension)

/-- The last record in `ms` (arrival order) with the exact metric name
`nm` and effective app id `aid` — the value a recognized `AppStats` field
must end up holding. -/
def fieldFind (nm : Str) (aid : Str) (ms : List MetricEntry) : Option MetricEntry :=
  ms.reverse.find? (fun m => m.name == nm && effAppId m == aid)

/-- Whether some buffered metric is `app.`-prefixed with effective app id
`aid` — exactly when `buildAppStats` creates an entry for `aid`. -/
def appAny (aid : Str) (ms : List MetricEntry) : Bool :=
  ms.any (fun m => isAppName m.name && effAppId m == aid)

/-- The `AppStats` record that `buildAppStats` must produce for `aid`:
extension status from the supplied id set, and each of the four
recognized fields holding the last exactly-matching record. -/
def statsOf (aid : Str) (ext : List Str) (ms : List MetricEntry) : AppStats :=
  { appId := aid, isExtension := ext.contains aid,
    rps := fieldFind rpsName aid ms,
    p95Latency := fieldFind p95Name aid ms,
    errorPercent := fieldFind errName aid ms,
    rateLimited := fieldFind rlName aid ms }

/-! ## Theorems -/

/-- The last `k` elements of a list (suffix of length `min l.length k`). -/
def takeLast (k : Nat) (l : List α) : List α := l.drop (l.length - k)

theorem length_takeLast (k : Nat) (l : List α) :
    (takeLast k l).length = min l.length k := by
  simp [takeLast]; omega

theorem pushLive_takeLast {α : Type} {c : Nat} (hc : 0 < c) (p : List α) (x : α) :
    pushLive c (takeLast c p) x = takeLast c (p ++ [x]) := by
  rcases Nat.lt_or_ge p.length c with h | h
  · have htake : takeLast c p = p := by
      simp [takeLast, Nat.sub_eq_zero_of_le (Nat.le_of_lt h)]
    rw [htake]
    simp only [pushLive]
    have hnot : ¬ (p ++ [x]).length > c := by simp; omega
    rw [if_neg hnot]
    have h1 : p.length + 1 - c = 0 := by omega
    simp [takeLast, h1]
  · have hlen : (takeLast c p).length = c := by rw [length_takeLast]; omega
    simp only [pushLive]
    have hgt : (takeLast c p ++ [x]).length > c := by
      simp [hlen]
    rw [if_pos hgt]
    have hc0 : ¬ c = 0 := by omega
    simp only [jsSliceLast, if_neg hc0]
    have hd : (takeLast c p ++ [x]).length - c = 1 := by
      simp [hlen]
    rw [hd]
    simp only [takeLast]
    rw [List.drop_append_eq_append_drop, List.drop_drop,
      List.drop_append_eq_append_drop]
    have e1 : 1 - (p.drop (p.length - c)).length = 0 := by simp; omega
    have e3 : p.length - c + 1 = (p ++ [x]).length - c := by simp; omega
    have e4 : (p ++ [x]).length - c - p.length = 0 := by simp; omega
    rw [e1, e3, e4]

theorem foldl_pushLive_takeLast {α : Type} {c : Nat} (hc : 0 < c) (xs : List α) :
    ∀ p : List α, xs.foldl (pushLive c) (takeLast c p) = takeLast c (p ++ xs) := by
  induction xs with
  | nil => intro p; simp
  | cons x xs ih =>
    intro p
    rw [List.foldl_cons, pushLive_takeLast hc, ih (p ++ [x])]
    simp

/-- C1 — BoundedBuffer eviction: for every capacity `c > 0` and every
sequence `xs` of live pushes into an initially empty buffer, the buffer
length after all pushes is `min xs.length c` and the content is the last
`c` pushed items in arrival order (`xs.drop (xs.length - c)`); the default
capacity of the live/update path is `maxItems = 1000`. -/
theorem C1_bounded_buffer_eviction {α : Type} (c : Nat) (hc : 0 < c) (xs : List α) :
    (xs.foldl (pushLive c) []).length = min xs.length c
      ∧ xs.foldl (pushLive c) [] = xs.drop (xs.length - c)
      ∧ defaultMaxItems = 1000 := by
  have h : xs.foldl (pushLive c) [] = takeLast c xs := by
    have h0 : takeLast c ([] : List α) = [] := by simp [takeLast]
    have := foldl_pushLive_takeLast hc xs []
    rw [h0] at this
    simpa using this
  exact ⟨by rw [h, length_takeLast], by rw [h]; rfl, rfl⟩

/-- Witness for C1: capacity 3, pushes `[10, 20, 30, 40]` — the buffer
ends as `[20, 30, 40]`, of length `min 4 3`. -/
theorem C1_bounded_buffer_eviction_witness :
    0 < 3 ∧ List.foldl (pushLive 3) ([] : List Nat) [10, 20, 30, 40] = [20, 30, 40] := by
  refine ⟨by decide, ?_⟩
  rw [(C1_bounded_buffer_eviction 3 (by decide) [10, 20, 30, 40]).2.1]
  decide

/-- C2 counterexample: the claim says a non-empty snapshot result is
installed reversed into oldest-first order, but the code installs the
records exactly as fetched — for fetched records `[1, 2]` the buffer
becomes `[1, 2]`, not `reverse [1, 2] = [2, 1]`. -/
theorem C2_snapshot_reversal_counterexample :
    ¬ snapshotInstall [1, 2] ([] : List Nat) = List.reverse [1, 2] := by
  decide

/-- C2 (amended) — Snapshot installation: when the one-shot snapshot
fetch completes with a non-empty result set, the buffer is fully replaced
by the fetched records in the order they were returned (no reversal,
never merging with live records already buffered); an empty result set,
or a network/decode failure, leaves the buffer unchanged. -/
theorem C2_snapshot_installation_amended {σ α : Type} (records buf : List α)
    (paused : Bool) (maxItems : Nat) (parse : σ → Option α) (st : SubState α) :
    (records ≠ [] → snapshotInstall records buf = records)
      ∧ (records = [] → snapshotInstall records buf = buf)
      ∧ subStep paused maxItems parse st SubEvent.snapshotErr = st := by
  refine ⟨?_, ?_, rfl⟩
  · intro h
    simp [snapshotInstall, List.length_pos.mpr h]
  · intro h
    subst h
    simp [snapshotInstall]

/-- Witness for C2 (amended): a non-empty snapshot `[5]` replaces buffer
`[9]`; an empty snapshot leaves `[9]` unchanged. -/
theorem C2_snapshot_installation_amended_witness :
    snapshotInstall [5] [9] = [5] ∧ snapshotInstall ([] : List Nat) [9] = [9] :=
  ⟨(C2_snapshot_installation_amended [5] [9] false 0 (fun _ : Unit => none)
      ⟨[], false⟩).1 (by decide),
   (C2_snapshot_installation_amended [] [9] false 0 (fun _ : Unit => none)
      ⟨[], false⟩).2.1 rfl⟩

/-- C3 — Pause invariant: while `paused = true` every sequence of live
update events leaves the buffer unchanged; after unpausing, the buffer
evolves exactly as if the dropped events had never arrived (they are not
recovered), and the unpaused listener appends each successfully parsed
event normally; the snapshot-installation step does not consult the
paused flag at all. -/
theorem C3_pause_invariant {σ α : Type} (maxItems : Nat) (parse : σ → Option α)
    (items : List α) (ds₁ ds₂ : List σ) (p p' : Bool) (st : SubState α)
    (records : List α) :
    List.foldl (updListener true maxItems parse) items ds₁ = items
      ∧ List.foldl (updListener false maxItems parse)
          (List.foldl (updListener true maxItems parse) items ds₁) ds₂
        = List.foldl (updListener false maxItems parse) items ds₂
      ∧ List.foldl (updListener false maxItems parse) items ds₂
        = List.foldl (pushLive maxItems) items (ds₂.filterMap parse)
      ∧ subStep p maxItems parse st (SubEvent.snapshotOk records)
        = subStep p' maxItems parse st (SubEvent.snapshotOk records) := by
  have hpaused : ∀ (ds : List σ) (its : List α),
      List.foldl (updListener true maxItems parse) its ds = its := by
    intro ds
    induction ds with
    | nil => intro its; rfl
    | cons d ds ih =>
      intro its
      rw [List.foldl_cons]
      have : updListener true maxItems parse its d = its := by simp [updListener]
      rw [this, ih]
  have happend : ∀ (ds : List σ) (its : List α),
      List.foldl (updListener false maxItems parse) its ds
        = List.foldl (pushLive maxItems) its (ds.filterMap parse) := by
    intro ds
    induction ds with
    | nil => intro its; rfl
    | cons d ds ih =>
      intro its
      cases hp : parse d with
      | some x => simp [List.filterMap_cons, hp, updListener, ih]
      | none => simp [List.filterMap_cons, hp, updListener, ih]
  exact ⟨hpaused ds₁ items, by rw [hpaused ds₁ items], happend ds₂ items, rfl⟩

/-- After release every event is a no-op on the subscription state. -/
theorem subStep_released {σ α : Type} (p : Bool) (maxItems : Nat)
    (parse : σ → Option α) (st : SubState α) (h : st.released = true)
    (e : SubEvent σ α) : subStep p maxItems parse st e = st := by
  cases e <;> cases st <;> simp_all [subStep]

/-- C5 — Release semantics: once the effect cleanup has run (the live
connection is closed and the subscription is released), no subsequent
event — live update, late snapshot resolution, or failure — changes the
buffered items: a still-in-flight snapshot fetch's result is discarded as
a no-op on arrival. -/
theorem C5_release_semantics {σ α : Type} (p : Bool) (maxItems : Nat)
    (parse : σ → Option α) (st : SubState α) (evs : List (SubEvent σ α)) :
    List.foldl (subStep p maxItems parse)
        (subStep p maxItems parse st SubEvent.cleanup) evs
      = { items := st.items, released := true } := by
  have h0 : subStep p maxItems parse st SubEvent.cleanup
      = { items := st.items, released := true } := rfl
  rw [h0]
  induction evs with
  | nil => rfl
  | cons e evs ih =>
    rw [List.foldl_cons, subStep_released p maxItems parse _ rfl e]
    exact ih

/-- C10 — Snapshot installation bypasses capacity eviction: a non-empty
snapshot of `m` records is installed without trimming, so the bound
`length ≤ maxItems` holds after installation exactly when `m ≤ maxItems`
(in practice because the fetch cap 500 is below the default 1000), while
any single subsequent live push re-establishes the bound by trimming to
the last `maxItems`. -/
theorem C10_snapshot_bypasses_capacity {α : Type} (maxItems : Nat)
    (records buf : List α) (h : records ≠ []) :
    snapshotInstall records buf = records
      ∧ ((snapshotInstall records buf).length ≤ maxItems
          ↔ records.length ≤ maxItems)
      ∧ (0 < maxItems → ∀ (b : List α) (x : α),
          (pushLive maxItems b x).length ≤ maxItems)
      ∧ snapshotLimit ≤ defaultMaxItems := by
  have hins : snapshotInstall records buf = records := by
    simp [snapshotInstall, List.length_pos.mpr h]
  refine ⟨hins, by rw [hins], ?_, by decide⟩
  intro hm b x
  simp only [pushLive]
  by_cases hgt : (b ++ [x]).length > maxItems
  · rw [if_pos hgt]
    have h0 : ¬ maxItems = 0 := by omega
    simp [jsSliceLast, h0]
    omega
  · rw [if_neg hgt]
    omega

/-- Witness for C10: three snapshot records enter a buffer of capacity 2
untrimmed, violating the bound until a live push restores it. -/
theorem C10_snapshot_bypasses_capacity_witness :
    snapshotInstall [1, 2, 3] ([] : List Nat) = [1, 2, 3]
      ∧ ¬ (snapshotInstall [1, 2, 3] ([] : List Nat)).length ≤ 2 := by
  have h := C10_snapshot_bypasses_capacity 2 [1, 2, 3] ([] : List Nat) (by decide)
  exact ⟨h.1, by rw [h.1]; decide⟩

/-- Characterization of the LogsPanel filter predicate. -/
theorem logPasses_iff (e : List Str) (s : Str) (lg : LogEntry) :
    logPasses e s lg = true
      ↔ e.contains lg.level = true
        ∧ (s ≠ [] → (strContains (toLowerStr lg.message) (toLowerStr s) = true
            ∨ strContains (toLowerStr lg.target) (toLowerStr s) = true)) := by
  by_cases h1 : e.contains lg.level <;> by_cases h2 : s.isEmpty <;>
    simp_all [logPasses, List.isEmpty_iff]

/-- Characterization of the SpansPanel filter predicate. -/
theorem spanPasses_iff (s : Str) (sp : SpanEntry) :
    spanPasses s sp = true
      ↔ (s ≠ [] → (strContains (toLowerStr sp.name) (toLowerStr s) = true
          ∨ strContains (toLowerStr sp.target) (toLowerStr s) = true)) := by
  by_cases h2 : s.isEmpty <;> simp_all [spanPasses, List.isEmpty_iff]

/-- C9 — RecordFilterer: a log record is in the filtered output iff its
level is enabled and, when a search string is set, its lowercased message
or target contains the lowercased search string; a span record passes iff,
when a search string is set, its name or target contains it (no level
condition); both filtered outputs are sublists of the buffer, preserving
its order with no re-sorting. -/
theorem C9_record_filterer (enabledLevels : List Str) (search : Str)
    (logs : List LogEntry) (spans : List SpanEntry) (lg : LogEntry) (sp : SpanEntry) :
    (lg ∈ logFiltered enabledLevels search logs
      ↔ lg ∈ logs ∧ enabledLevels.contains lg.level = true
          ∧ (search ≠ [] →
              (strContains (toLowerStr lg.message) (toLowerStr search) = true
                ∨ strContains (toLowerStr lg.target) (toLowerStr search) = true)))
      ∧ (sp ∈ spanFiltered search spans
          ↔ sp ∈ spans
            ∧ (search ≠ [] →
                (strContains (toLowerStr sp.name) (toLowerStr search) = true
                  ∨ strContains (toLowerStr sp.target) (toLowerStr search) = true)))
      ∧ List.Sublist (logFiltered enabledLevels search logs) logs
      ∧ List.Sublist (spanFiltered search spans) spans := by
  refine ⟨?_, ?_, List.filter_sublist _, List.filter_sublist _⟩
  · rw [logFiltered, List.mem_filter, logPasses_iff]
  · rw [spanFiltered, List.mem_filter, spanPasses_iff]

/-- Looking up after a `Map.set`: the set key now maps to the new value,
every other key is untouched. -/
theorem lookup_mapSet {κ ν : Type} [DecidableEq κ] [BEq κ] [LawfulBEq κ]
    (m : List (κ × ν)) (k k' : κ) (v : ν) :
    (mapSet m k v).lookup k' = if k = k' then some v else m.lookup k' := by
  induction m with
  | nil =>
    by_cases h : k = k'
    · subst h; simp [mapSet, List.lookup]
    · have hb : (k' == k) = false := beq_eq_false_iff_ne.mpr (fun e => h e.symm)
      simp [mapSet, List.lookup, h, hb]
  | cons p rest ih =>
    obtain ⟨pk, pv⟩ := p
    by_cases h1 : pk = k
    · subst h1
      by_cases h : pk = k'
      · subst h; simp [mapSet, List.lookup]
      · have hb : (k' == pk) = false := beq_eq_false_iff_ne.mpr (fun e => h e.symm)
        simp [mapSet, List.lookup, h, hb]
    · by_cases h2 : k' = pk
      · subst h2
        have hne : ¬ k = k' := fun e => h1 e.symm
        simp [mapSet, List.lookup, h1, hne]
      · have hb : (k' == pk) = false := beq_eq_false_iff_ne.mpr h2
        simp [mapSet, List.lookup, h1, hb, ih]

/-- The dedup map holds, at each key, exactly the last buffered record
with that `metricKey` (arrival order = buffer order). -/
theorem lookup_latestMetrics (items : List MetricEntry) (k : Str) :
    (latestMetrics items).lookup k
      = items.reverse.find? (fun r => metricKey r == k) := by
  induction items using List.reverseRecOn with
  | nil => simp [latestMetrics, List.lookup]
  | append_singleton ys m ih =>
    rw [latestMetrics, List.foldl_append, List.foldl_cons, List.foldl_nil]
    rw [show List.foldl (fun acc m => mapSet acc (metricKey m) m) [] ys
        = latestMetrics ys from rfl]
    rw [lookup_mapSet, List.reverse_append]
    simp only [List.reverse_cons, List.reverse_nil, List.nil_append,
      List.singleton_append]
    by_cases h : metricKey m = k
    · rw [if_pos h, List.find?_cons_of_pos _ (by simp [h])]
    · rw [if_neg h, List.find?_cons_of_neg _ (by simp [h]), ih]

/-- C4 — Dedup last-write-wins: in the `latestMetrics` map, each
`MetricIdentity` key holds exactly the last buffered record with that
identity in arrival order (`find?` over the reversed buffer), and the
identity — hence the dedup result — is independent of the record's
timestamp field. -/
theorem C4_dedup_last_write_wins (items : List MetricEntry) (k : Str)
    (m : MetricEntry) (ts : Str) :
    (latestMetrics items).lookup k = items.reverse.find? (fun r => metricKey r == k)
      ∧ metricKey { m with timestamp := ts } = metricKey m :=
  ⟨lookup_latestMetrics items k, rfl⟩

/-- An `app.`-prefixed name cannot carry a system prefix: the first
characters differ (`a` vs `s`/`p`/`t`). -/
theorem app_name_not_system (n : Str) (h : isAppName n = true) :
    isSystemName n = false := by
  cases n with
  | nil => exact absurd h (by decide)
  | cons c t =>
    have e : ('a' : Char) = c := by
      rw [isAppName, show "app.".data = 'a' :: "pp.".data from rfl] at h
      simp only [strStartsWith, Bool.and_eq_true, beq_iff_eq] at h
      exact h.1
    subst e
    rw [isSystemName,
      show "system.".data = 's' :: "ystem.".data from rfl,
      show "process.".data = 'p' :: "rocess.".data from rfl,
      show "telemetry.".data = 't' :: "elemetry.".data from rfl]
    simp [strStartsWith]

/-- The system/other loop accumulates exactly the system-prefixed metrics
and the remaining non-`app.` metrics, in buffer order. -/
theorem partitionMetrics_spec (ms : List MetricEntry) :
    (partitionMetrics ms).1 = ms.filter (fun m => isSystemName m.name)
      ∧ (partitionMetrics ms).2
        = ms.filter (fun m => !isSystemName m.name && !isAppName m.name) := by
  suffices h : ∀ (a b : List MetricEntry),
      ms.foldl partStep (a, b)
      = (a ++ ms.filter (fun m => isSystemName m.name),
          b ++ ms.filter (fun m => !isSystemName m.name && !isAppName m.name)) by
    have := h [] []
    constructor
    · rw [partitionMetrics, this]; simp
    · rw [partitionMetrics, this]; simp
  induction ms with
  | nil => intro a b; simp
  | cons m ms ih =>
    intro a b
    rw [List.foldl_cons]
    by_cases h1 : isSystemName m.name
    · have hs : partStep (a, b) m = (a ++ [m], b) := by simp [partStep, h1]
      rw [hs, ih, List.filter_cons, List.filter_cons]
      simp [h1]
    · by_cases h2 : isAppName m.name
      · have hs : partStep (a, b) m = (a, b) := by simp [partStep, h1, h2]
        rw [hs, ih, List.filter_cons, List.filter_cons]
        simp [h1, h2]
      · have hs : partStep (a, b) m = (a, b ++ [m]) := by simp [partStep, h1, h2]
        rw [hs, ih, List.filter_cons, List.filter_cons]
        simp [h1, h2]

/-- C6 — Category partition: the name-prefix classification is total and
disjoint — a name is classified `system` iff it has a `system.`,
`process.` or `telemetry.` prefix, `application` iff it has an `app.`
prefix, and `other` iff it has neither, so every name lands in exactly
one category; the panel's loop extracts exactly the system and other
groups from the deduplicated metrics. -/
theorem C6_category_partition (ms : List MetricEntry) (n : Str) :
    (category n = MCat.system ↔ isSystemName n = true)
      ∧ (category n = MCat.application ↔ isAppName n = true)
      ∧ (category n = MCat.other ↔ (isSystemName n = false ∧ isAppName n = false))
      ∧ (partitionMetrics ms).1 = ms.filter (fun m => isSystemName m.name)
      ∧ (partitionMetrics ms).2
          = ms.filter (fun m => !isSystemName m.name && !isAppName m.name) := by
  refine ⟨?_, ?_, ?_, (partitionMetrics_spec ms).1, (partitionMetrics_spec ms).2⟩
  · by_cases h1 : isSystemName n <;> by_cases h2 : isAppName n <;>
      simp [category, h1, h2]
  · by_cases h1 : isSystemName n <;> by_cases h2 : isAppName n <;>
      simp [category, h1, h2]
    exact absurd (app_name_not_system n h2) (by simp [h1])
  · by_cases h1 : isSystemName n <;> by_cases h2 : isAppName n <;>
      simp [category, h1, h2]

/-- C8 — Attributes parsing is total and handles double encoding:
`parseAppId` is a total function into `Option` (absent, empty and the
literal empty-object attributes yield no id); a failure of the first
JSON decode yields no id; when the first decode produces a string whose
second decode fails, it also yields no id; a singly encoded object with
`app_id` `"x"` resolves to `"x"`, and the double-encoded attributes
string holding `app_id` `"y"` resolves to `"y"`. -/
theorem C8_attributes_parsing (s inner : Str) :
    parseAppId none = none
      ∧ parseAppId (some []) = none
      ∧ parseAppId (some ("\x7b\x7d".data)) = none
      ∧ (jsonParse s = none → parseAppId (some s) = none)
      ∧ (jsonParse s = some (Json.str inner) → jsonParse inner = none →
          parseAppId (some s) = none)
      ∧ parseAppId (some ("\x7b\"app_id\":\"x\"\x7d".data)) = some ("x".data)
      ∧ parseAppId (some ("\"\x7b\\\"app_id\\\":\\\"y\\\"\x7d\"".data))
          = some ("y".data) := by
  refine ⟨rfl, rfl, rfl, ?_, ?_, rfl, rfl⟩
  · intro h
    by_cases he : s.isEmpty
    · simp [parseAppId, he]
    · by_cases hb : s = "\x7b\x7d".data
      · simp [parseAppId, he, hb]
      · simp [parseAppId, he, hb, h]
  · intro h1 h2
    by_cases he : s.isEmpty
    · simp [parseAppId, he]
    · by_cases hb : s = "\x7b\x7d".data
      · simp [parseAppId, he, hb]
      · simp [parseAppId, he, hb, h1, h2]

/-- Witness for C8: `"x"` is not valid JSON, so the first decode fails
and yields no id; `'"a"'` decodes to the string `a`, whose second decode
fails, also yielding no id. -/
theorem C8_attributes_parsing_witness :
    parseAppId (some ("x".data)) = none ∧ parseAppId (some ("\"a\"".data)) = none :=
  ⟨(C8_attributes_parsing "x".data []).2.2.2.1 rfl,
   (C8_attributes_parsing "\"a\"".data "a".data).2.2.2.2.1 rfl rfl⟩

theorem lexLe_total : ∀ a b : Str, lexLe a b = true ∨ lexLe b a = true
  | [], _ => Or.inl rfl
  | _ :: _, [] => Or.inr rfl
  | a :: as, b :: bs => by
    rcases Nat.lt_trichotomy a.toNat b.toNat with h | h | h
    · left; simp [lexLe, h]
    · have h1 : ¬ a.toNat < b.toNat := by omega
      have h2 : ¬ b.toNat < a.toNat := by omega
      rcases lexLe_total as bs with ih | ih
      · left; simp [lexLe, h1, h2, ih]
      · right; simp [lexLe, h1, h2, ih]
    · right; simp [lexLe, h]

theorem lexLe_trans : ∀ a b c : Str,
    lexLe a b = true → lexLe b c = true → lexLe a c = true
  | [], _, _, _, _ => rfl
  | _ :: _, [], _, h1, _ => by simp [lexLe] at h1
  | _ :: _, _ :: _, [], _, h2 => by simp [lexLe] at h2
  | a :: as, b :: bs, c :: cs, h1, h2 => by
    by_cases hab : a.toNat < b.toNat <;> by_cases hbc : b.toNat < c.toNat
    · simp [lexLe, show a.toNat < c.toNat from Nat.lt_trans hab hbc]
    · by_cases hcb : c.toNat < b.toNat
      · simp [lexLe, hbc, hcb] at h2
      · simp [lexLe, show a.toNat < c.toNat by omega]
    · by_cases hba : b.toNat < a.toNat
      · simp [lexLe, hab, hba] at h1
      · simp [lexLe, show a.toNat < c.toNat by omega]
    · by_cases hba : b.toNat < a.toNat
      · simp [lexLe, hab, hba] at h1
      · by_cases hcb : c.toNat < b.toNat
        · simp [lexLe, hbc, hcb] at h2
        · have h1' : lexLe as bs = true := by simp [lexLe, hab, hba] at h1; exact h1
          have h2' : lexLe bs cs = true := by simp [lexLe, hbc, hcb] at h2; exact h2
          have hac1 : ¬ a.toNat < c.toNat := by omega
          have hac2 : ¬ c.toNat < a.toNat := by omega
          simp [lexLe, hac1, hac2, lexLe_trans as bs cs h1' h2']

instance : IsTotal AppStats appLe :=
  ⟨fun a b => lexLe_total a.appId b.appId⟩

instance : IsTrans AppStats appLe :=
  ⟨fun a b c => lexLe_trans a.appId b.appId c.appId⟩

/-- The loop body `statsStep` ignores non-`app.` metrics. -/
theorem statsStep_not_app (ext : List Str) (sm : List (Str × AppStats))
    (m : MetricEntry) (h : isAppName m.name = false) :
    statsStep ext sm m = sm := by
  simp [statsStep, h]

/-- The loop body `statsStep` on an `app.` metric: ensure the entry exists (fresh if
absent, untouched otherwise), then store the field update in place. -/
theorem statsStep_app (ext : List Str) (sm : List (Str × AppStats))
    (m : MetricEntry) (happ : isAppName m.name = true) :
    statsStep ext sm m
      = mapSet
          (if (sm.lookup (effAppId m)).isSome then sm
            else mapSet sm (effAppId m) (freshStats (effAppId m) ext))
          (effAppId m)
          (updateStats ((sm.lookup (effAppId m)).getD (freshStats (effAppId m) ext)) m) := by
  cases hin : sm.lookup (effAppId m) with
  | some st => simp [statsStep, happ, hin]
  | none => simp [statsStep, happ, hin, lookup_mapSet]

/-- The lookup view of one `statsStep` on an `app.` metric. -/
theorem lookup_statsStep_app (ext : List Str) (sm : List (Str × AppStats))
    (m : MetricEntry) (aid : Str) (happ : isAppName m.name = true) :
    (statsStep ext sm m).lookup aid
      = if effAppId m = aid
        then some (updateStats
            ((sm.lookup (effAppId m)).getD (freshStats (effAppId m) ext)) m)
        else sm.lookup aid := by
  rw [statsStep_app ext sm m happ, lookup_mapSet]
  by_cases h : effAppId m = aid
  · rw [if_pos h, if_pos h]
  · rw [if_neg h, if_neg h]
    cases hin : (sm.lookup (effAppId m)).isSome
    · simp [hin, lookup_mapSet, h]
    · simp [hin]

theorem fieldFind_append (nm aid : Str) (ys : List MetricEntry) (m : MetricEntry) :
    fieldFind nm aid (ys ++ [m])
      = if m.name == nm && effAppId m == aid then some m
        else fieldFind nm aid ys := by
  rw [fieldFind, fieldFind, List.reverse_append]
  simp only [List.reverse_cons, List.reverse_nil, List.nil_append,
    List.singleton_append]
  by_cases h : (m.name == nm && effAppId m == aid) = true
  · simp [List.find?_cons, h]
  · simp [List.find?_cons, h]

theorem appAny_append (aid : Str) (ys : List MetricEntry) (m : MetricEntry) :
    appAny aid (ys ++ [m])
      = (appAny aid ys || (isAppName m.name && effAppId m == aid)) := by
  simp [appAny, List.any_append]

/-- If no buffered metric has app id `aid`, every recognized field is
absent (its exact name is an `app.` name). -/
theorem fieldFind_of_appAny_false (nm aid : Str) (ms : List MetricEntry)
    (hnm : isAppName nm = true) (h : appAny aid ms = false) :
    fieldFind nm aid ms = none := by
  cases hf : fieldFind nm aid ms with
  | none => rfl
  | some r =>
    exfalso
    rw [fieldFind] at hf
    have hp := List.find?_some hf
    have hmem : r ∈ ms := List.mem_reverse.mp (List.mem_of_find?_eq_some hf)
    simp only [Bool.and_eq_true, beq_iff_eq] at hp
    have : appAny aid ms = true := by
      rw [appAny, List.any_eq_true]
      exact ⟨r, hmem, by simp [hp.1, hnm, hp.2]⟩
    rw [this] at h
    simp at h

/-- Without any metric for `aid`, the expected stats are the fresh entry. -/
theorem statsOf_of_appAny_false (aid : Str) (ext : List Str)
    (ms : List MetricEntry) (h : appAny aid ms = false) :
    statsOf aid ext ms = freshStats aid ext := by
  rw [statsOf, freshStats,
    fieldFind_of_appAny_false rpsName aid ms (by decide) h,
    fieldFind_of_appAny_false p95Name aid ms (by decide) h,
    fieldFind_of_appAny_false errName aid ms (by decide) h,
    fieldFind_of_appAny_false rlName aid ms (by decide) h]

/-- Applying one `app.` metric of app id `aid` to the expected stats over
`ys` yields the expected stats over `ys ++ [m]`: an exact-name match
updates exactly its field, any other name changes nothing. -/
theorem updateStats_statsOf (m : MetricEntry) (aid : Str) (ext : List Str)
    (ys : List MetricEntry) (haid : effAppId m = aid) :
    updateStats (statsOf aid ext ys) m = statsOf aid ext (ys ++ [m]) := by
  have hbeq : (effAppId m == aid) = true := by simp [haid]
  by_cases h1 : m.name = rpsName
  · have d2 : ¬ (rpsName = p95Name) := by decide
    have d3 : ¬ (rpsName = errName) := by decide
    have d4 : ¬ (rpsName = rlName) := by decide
    simp [updateStats, statsOf, fieldFind_append, h1, hbeq, d2, d3, d4]
  · by_cases h2 : m.name = p95Name
    · have d1 : ¬ (p95Name = rpsName) := by decide
      have d3 : ¬ (p95Name = errName) := by decide
      have d4 : ¬ (p95Name = rlName) := by decide
      simp [updateStats, statsOf, fieldFind_append, h1, h2, hbeq, d1, d3, d4]
    · by_cases h3 : m.name = errName
      · have d1 : ¬ (errName = rpsName) := by decide
        have d2 : ¬ (errName = p95Name) := by decide
        have d4 : ¬ (errName = rlName) := by decide
        simp [updateStats, statsOf, fieldFind_append, h1, h2, h3, hbeq, d1, d2, d4]
      · by_cases h4 : m.name = rlName
        · have d1 : ¬ (rlName = rpsName) := by decide
          have d2 : ¬ (rlName = p95Name) := by decide
          have d3 : ¬ (rlName = errName) := by decide
          simp [updateStats, statsOf, fieldFind_append, h1, h2, h3, h4, hbeq,
            d1, d2, d3]
        · simp [updateStats, statsOf, fieldFind_append, h1, h2, h3, h4, hbeq]

/-- The `buildAppStats` map contains an entry for `aid` exactly when some
buffered metric is `app.`-prefixed with that effective app id, and that
entry is exactly the expected one: extension status from the id set, each
recognized field the last exactly-matching record. -/
theorem lookup_buildAppStats (ms : List MetricEntry) (ext : List Str) :
    ∀ aid : Str, (buildAppStats ms ext).lookup aid
      = if appAny aid ms then some (statsOf aid ext ms) else none := by
  induction ms using List.reverseRecOn with
  | nil => intro aid; simp [buildAppStats, appAny, List.lookup]
  | append_singleton ys m ih =>
    intro aid
    rw [buildAppStats, List.foldl_append, List.foldl_cons, List.foldl_nil,
      show ys.foldl (statsStep ext) [] = buildAppStats ys ext from rfl]
    by_cases happ : isAppName m.name = true
    · rw [lookup_statsStep_app ext _ m aid happ]
      by_cases haid : effAppId m = aid
      · rw [if_pos haid]
        have hany : appAny aid (ys ++ [m]) = true := by
          rw [appAny_append]
          simp [happ, haid]
        rw [if_pos hany, haid, ih aid]
        by_cases hc : appAny aid ys = true
        · rw [if_pos hc]
          simp only [Option.getD_some]
          rw [updateStats_statsOf m aid ext ys haid]
        · have hc' : appAny aid ys = false := by simpa using hc
          rw [if_neg hc]
          simp only [Option.getD_none]
          rw [show freshStats aid ext = statsOf aid ext ys from
              (statsOf_of_appAny_false aid ext ys hc').symm]
          rw [updateStats_statsOf m aid ext ys haid]
      · rw [if_neg haid, ih aid]
        have hmb : (effAppId m == aid) = false := beq_eq_false_iff_ne.mpr haid
        have hany : appAny aid (ys ++ [m]) = appAny aid ys := by
          rw [appAny_append, hmb]
          simp
        rw [hany]
        by_cases hc : appAny aid ys = true
        · rw [if_pos hc, if_pos hc]
          have hfields : statsOf aid ext (ys ++ [m]) = statsOf aid ext ys := by
            simp [statsOf, fieldFind_append, hmb]
          rw [hfields]
        · rw [if_neg hc, if_neg hc]
    · have happ' : isAppName m.name = false := by simpa using happ
      rw [statsStep_not_app ext _ m happ', ih aid]
      have hany : appAny aid (ys ++ [m]) = appAny aid ys := by
        rw [appAny_append, happ']
        simp
      rw [hany]
      by_cases hc : appAny aid ys = true
      · rw [if_pos hc, if_pos hc]
        have hf : ∀ nm : Str, isAppName nm = true →
            fieldFind nm aid (ys ++ [m]) = fieldFind nm aid ys := by
          intro nm hnm
          rw [fieldFind_append]
          have hne : (m.name == nm) = false := by
            cases hx : m.name == nm
            · rfl
            · exfalso
              have he : m.name = nm := by simpa using hx
              rw [he, hnm] at happ'
              simp at happ'
          simp [hne]
        have hst : statsOf aid ext (ys ++ [m]) = statsOf aid ext ys := by
          simp [statsOf, hf rpsName (by decide), hf p95Name (by decide),
            hf errName (by decide), hf rlName (by decide)]
        rw [hst]
      · rw [if_neg hc, if_neg hc]

/-- C7 — AppStat construction: the stats map has an entry for an app id
exactly when some `app.`-prefixed metric parses to that id (absent ids
bucketed as `unknown` by `effAppId`), and that entry carries the
extension flag from the supplied id set and exactly the four recognized
sub-metrics by exact name match, each holding the last matching record —
any other `app.*` name leaves the fields unchanged; `allApps` is the
stats map's values sorted ascending by app id, and the extension /
application groups are its sorted values split by membership of the
extension-id set, each group sorted ascending by app id. -/
theorem C7_app_stats_construction (ms : List MetricEntry) (ext : List Str)
    (aid : Str) (st : AppStats) :
    ((buildAppStats ms ext).lookup aid
        = if appAny aid ms then some (statsOf aid ext ms) else none)
      ∧ List.Sorted appLe (allAppsOf ms ext)
      ∧ List.Perm (allAppsOf ms ext) ((buildAppStats ms ext).map Prod.snd)
      ∧ List.Sorted appLe (extensionsOf ms ext)
      ∧ List.Sorted appLe (applicationsOf ms ext)
      ∧ (st ∈ extensionsOf ms ext
          ↔ st ∈ (buildAppStats ms ext).map Prod.snd ∧ st.isExtension = true)
      ∧ (st ∈ applicationsOf ms ext
          ↔ st ∈ (buildAppStats ms ext).map Prod.snd ∧ st.isExtension = false) := by
  have hsort : List.Sorted appLe (allAppsOf ms ext) :=
    List.sorted_insertionSort appLe _
  have hperm : List.Perm (allAppsOf ms ext) ((buildAppStats ms ext).map Prod.snd) :=
    List.perm_insertionSort appLe _
  refine ⟨lookup_buildAppStats ms ext aid, hsort, hperm, ?_, ?_, ?_, ?_⟩
  · exact List.Pairwise.sublist (List.filter_sublist _) hsort
  · exact List.Pairwise.sublist (List.filter_sublist _) hsort
  · rw [extensionsOf, List.mem_filter, hperm.mem_iff]
  · rw [applicationsOf, List.mem_filter, hperm.mem_iff]
    simp only [Bool.not_eq_true']
